import Mathlib

/-!
Verification of the core of the firefly-transaction-manager repository:
the per-signer nonce allocator of the simple transaction handler
(`assignAndLockNonce` / `calcNextNonce` / `lockedNonce.complete`), the
managed-transaction history tracker (`SetSubStatus`), and the policy-loop
API request handling (delete requests, resubmission notifications).

The Go source is shallowly embedded: machine `uint64` arithmetic is `Nat`
with explicit `% 2 ^ 64`, fallible calls return `Except`, and the results
of persistence / connector calls are passed in as explicit arguments.
-/

namespace FFTM

/-- Errors returned by persistence or the blockchain connector, kept abstract
as their message string. -/
abbrev Err := String

/-- The modulus of Go `uint64` arithmetic. -/
def U64LIMIT : Nat := 2 ^ 64

/-- Semantics of `big.Int.Uint64()` (via `fftypes.FFBigInt.Uint64()`) on a
non-negative arbitrary-precision integer: the low 64 bits. -/
def toUint64 (n : Nat) : Nat := n % U64LIMIT

/-- The view of `apitypes.ManagedTX` used by the nonce allocator: the
arbitrary-precision `Nonce` and the `Created` timestamp (nanoseconds). -/
structure ManagedTX where
  nonce : Nat
  created : Int
  deriving Repr, DecidableEq

/-- Embedding of `calcNextNonce` (simple transaction handler).

`txns` is the result of `TXPersistence.ListTransactionsByNonce(ctx, signer, nil, 1, 1)`
(most recent transaction for the signer by descending nonce, limit 1);
`now - created < nonceStateTimeout` embeds `time.Since(*lastTxn.Created.Time()) < sth.nonceStateTimeout`;
`nodeNonce` is the result of `Connector.NextNonceForSigner` for the signer. -/
def calcNextNonce (txns : Except Err (List ManagedTX)) (now nonceStateTimeout : Int)
    (nodeNonce : Except Err Nat) : Except Err Nat :=
  match txns with
  | .error e => .error e
  | .ok ts =>
    match ts.head? with
    | some lastTxn =>
      if now - lastTxn.created < nonceStateTimeout then
        .ok (toUint64 (toUint64 lastTxn.nonce + 1))
      else
        match nodeNonce with
        | .error e => .error e
        | .ok resNonce =>
          let nextNonce := toUint64 resNonce
          if nextNonce ≤ toUint64 lastTxn.nonce then
            .ok (toUint64 (toUint64 lastTxn.nonce + 1))
          else
            .ok nextNonce
    | none =>
      match nodeNonce with
      | .error e => .error e
      | .ok resNonce => .ok (toUint64 resNonce)

/-- Outcome of one pass of the `assignAndLockNonce` loop body for one caller. -/
inductive AssignOutcome where
  /-- The signer was already locked: the caller blocks on `<-locked.unlocked`. -/
  | blocked
  /-- Result when `calcNextNonce` failed: the error is returned after `complete()`. -/
  | failed (e : Err)
  /-- A nonce was assigned; the caller holds the lock. -/
  | assigned (nonce : Nat)
  deriving Repr, DecidableEq

/-- Embedding of one serialized pass of `assignAndLockNonce` for one caller:
the mutex-guarded lookup of `sth.lockedNonces[signer]`, insertion of a fresh
`lockedNonce` when absent, and the `calcNextNonce` call; on error the entry is
removed again via `locked.complete(ctx)` before the error is returned.
The locked-nonce map is modelled by its set of locked signers. -/
def assignAndLockNonce (lockedNonces : List String) (signer : String)
    (txns : Except Err (List ManagedTX)) (now nonceStateTimeout : Int)
    (nodeNonce : Except Err Nat) : List String × AssignOutcome :=
  if signer ∈ lockedNonces then
    (lockedNonces, .blocked)
  else
    let afterInsert := signer :: lockedNonces
    match calcNextNonce txns now nonceStateTimeout nodeNonce with
    | .error e => (afterInsert.erase signer, .failed e)
    | .ok n => (afterInsert, .assigned n)

/-! ### Sequences of accepted requests (nonce assignment runs)

A run re-executes `calcNextNonce` once per accepted request, under the
per-signer lock, with the newly assigned transaction persisted before the
lock is released (as `HandleNewTransaction` does). The environment of each
request is the pair: whether the most recent persisted transaction is still
within `nonceStateTimeout`, and the node's `NextNonceForSigner` answer. -/

/-- Environment of one accepted request for one signer: `fresh` says whether
the most recent persisted transaction's `created` is within
`nonceStateTimeout` at the time of the request; `node` is the connector's
`NextNonceForSigner` answer if consulted. -/
structure NonceStep where
  fresh : Bool
  node : Nat
  deriving Repr, DecidableEq

/-- The result of `ListTransactionsByNonce(ctx, signer, nil, 1, 1)`: the
persisted transaction of the signer with the highest nonce, if any
(descending nonce order, limit 1). -/
def listByNonceDesc1 (persisted : List ManagedTX) : List ManagedTX :=
  (List.argmax (fun t => t.nonce) persisted).toList

/-- The nonce `calcNextNonce` assigns for one request, against the current
persisted set. The timestamps are instantiated so that the freshness test
`now - created < nonceStateTimeout` comes out as `s.fresh`; the connector
answers `s.node`. With both calls succeeding `calcNextNonce` cannot fail,
so the error branch is unreachable. -/
def nextNonceOfStep (persisted : List ManagedTX) (s : NonceStep) : Nat :=
  match calcNextNonce (.ok (listByNonceDesc1 persisted))
      (if s.fresh then 0 else 1) 1 (.ok s.node) with
  | .ok n => n
  | .error _ => 0

/-- The list of nonces assigned over a sequence of accepted requests, each
persisted (with `created` at the start of the clock) before the next request
runs. -/
def nonceRun : List ManagedTX → List NonceStep → List Nat
  | _, [] => []
  | persisted, s :: rest =>
    let n := nextNonceOfStep persisted s
    n :: nonceRun (persisted ++ [⟨n, 0⟩]) rest

/-- A list of nonces is consecutive: `n, n+1, ..., n+k-1` for some `n`. -/
def isConsecutive (l : List Nat) : Prop :=
  ∃ n, l = List.range' n l.length

/-- The side condition under which assignments stay consecutive, tracked
against the running last-assigned nonce: each step either finds the previous
record fresh, or the connector's answer does not exceed `last + 1`. -/
def stepsOkFrom : Nat → List NonceStep → Bool
  | _, [] => true
  | last, s :: rest => (s.fresh || decide (s.node ≤ last + 1)) && stepsOkFrom (last + 1) rest

/-! ### Transaction history tracker (`txhistory`)

The `txhistory` manager implementation is not under `src/`; it is modelled
from the spec (section 4.2), consistent with the expectations of the in-repo
tests `TestManagedTXSubStatus`, `TestManagedTXSubStatusRepeat`,
`TestManagedTXSubStatusMaxEntries` and `TestMaxHistoryCountSetToZero`. -/

/-- Modelled from the spec: one entry of `mtx.History` — it records the
sub-status, the time it was entered, and an ordered list of actions. -/
structure SubStatusEntry where
  status : String
  time : Int
  actions : List String
  deriving Repr, DecidableEq

/-- Modelled from the spec: one entry of `mtx.HistorySummary` — a unique
status or action ever seen, with first/last occurrence and cumulative count. -/
structure HistorySummaryEntry where
  status : Option String
  action : Option String
  count : Nat
  firstOccurrence : Int
  lastOccurrence : Int
  deriving Repr, DecidableEq

/-- The history-related fields of `apitypes.ManagedTX`. -/
structure MTXHistory where
  history : List SubStatusEntry
  historySummary : List HistorySummaryEntry
  deriving Repr, DecidableEq

/-- The status of the most recent (tail) history entry, if any. -/
def tailStatus (m : MTXHistory) : Option String :=
  m.history.getLast?.map (fun e => e.status)

/-- Modelled from the spec: the `historySummary` update for a sub-status
change — `historySummary` tracks every unique status ever seen with
`firstOccurrence`, `lastOccurrence` and cumulative `count`, and is never
evicted. -/
def addSummaryStatus (now : Int) (sum : List HistorySummaryEntry) (s : String) :
    List HistorySummaryEntry :=
  if sum.any (fun e => e.status == some s && e.action == none) then
    sum.map (fun e =>
      if e.status == some s && e.action == none then
        { e with count := e.count + 1, lastOccurrence := now }
      else e)
  else
    sum ++ [⟨some s, none, 1, now, now⟩]

/-- Modelled from the spec: `SetSubStatus(mtx, status)` of the `txhistory`
manager (implementation not under `src/`). With the same status as the
current tail it is a no-op; otherwise a new history entry is appended, with
FIFO eviction of the oldest entry once `maxHistoryCount` is reached; if
`maxHistoryCount = 0` the lists remain empty. -/
def SetSubStatus (maxHistoryCount : Nat) (now : Int) (m : MTXHistory) (s : String) :
    MTXHistory :=
  if maxHistoryCount = 0 then m
  else if tailStatus m = some s then m
  else
    let trimmed := if maxHistoryCount ≤ m.history.length then m.history.drop 1 else m.history
    { history := trimmed ++ [⟨s, now, []⟩]
      historySummary := addSummaryStatus now m.historySummary s }

/-- Fold a sequence of `SetSubStatus` calls over a managed transaction. -/
def applyStatuses (maxHistoryCount : Nat) (m : MTXHistory) (ss : List String) : MTXHistory :=
  ss.foldl (fun acc s => SetSubStatus maxHistoryCount 0 acc s) m

/-- The 100 pairwise-distinct sub-status strings of
`TestManagedTXSubStatusMaxEntries` (`fmt.Sprint(i)` for `i < 100`). -/
def hundredDistinct : List String := (List.range 100).map (fun i => toString i)

/-! ### Policy loop: resubmission and transaction hash changes

The policy-loop implementation (`execPolicy` / `policyLoopCycle`) is not
under `src/`; the resubmission step is modelled from the spec (section 4.4),
consistent with the in-repo test `TestPolicyLoopResubmitNewTXID`. -/

/-- A notification sent to the confirmations manager
(`confirmations.Notification`, restricted to the two transaction kinds). -/
inductive Notification where
  | newTransaction (hash : String)
  | removedTransaction (hash : String)
  deriving Repr, DecidableEq

/-- The submission-tracking fields of a managed transaction. -/
structure TxSubmission where
  transactionHash : String
  firstSubmit : Option Int
  lastSubmit : Option Int
  deriving Repr, DecidableEq

/-- Modelled from the spec: the resubmission step of `execPolicy`
(implementation not under `src/`) — when `now - lastSubmit` exceeds
`resubmitInterval` the transaction is re-sent; if the hash changed the
confirmations manager is notified `RemovedTransaction(oldHash)` then
`NewTransaction(newHash)`, and `lastSubmit` and `transactionHash` are
updated. `newHash` is the `TransactionSend` response hash. -/
def resubmitTX (tx : TxSubmission) (newHash : String) (now : Int) :
    TxSubmission × List Notification :=
  let notifications :=
    if newHash ≠ tx.transactionHash then
      [Notification.removedTransaction tx.transactionHash,
       Notification.newTransaction newHash]
    else []
  ({ tx with transactionHash := newHash, lastSubmit := some now }, notifications)

/-! ### Policy loop: API delete requests

`processPolicyAPIRequests` is not under `src/`; delete handling is modelled
from the spec (section 4.5) and from the in-repo tests that pin it down
(`TestExecPolicyDeleteInflightSync`, `TestExecPolicyDeleteFail`,
`TestExecPolicyDeleteNotFound`, `TestExecPolicyGetTxFail`): an in-flight
transaction is deleted from persistence synchronously during request
processing (the tests assert the `DeleteTransaction` mock call), the record's
`remove` flag is set so the in-flight entry is dropped on the next cycle, and
`OK` is returned; a transaction found nowhere yields error `FF21067`. -/

/-- A persistence operation issued while processing an API request. -/
inductive PersistenceOp where
  | getTransactionByID (txID : String)
  | deleteTransaction (txID : String)
  deriving Repr, DecidableEq

/-- An entry of the in-flight set (`pendingState`), reduced to the fields the
delete path touches. -/
structure PendingTx where
  txID : String
  remove : Bool
  deriving Repr, DecidableEq

/-- The response sent back on the request's response channel. -/
inductive DeleteResponse where
  /-- HTTP 200 with the transaction. -/
  | ok (txID : String)
  /-- Error `FF21067`: transaction not found. -/
  | notFound
  /-- A persistence error passed through. -/
  | failed (e : Err)
  deriving Repr, DecidableEq

/-- Modelled from the spec: processing of one Delete API request by
`processPolicyAPIRequests` (implementation not under `src/`), with the
synchronous-deletion behavior pinned by the in-repo tests. `getResult` is the
result of `GetTransactionByID` (`some` data or `none` when absent);
`deleteResult` is the result of `DeleteTransaction`. Returns the new
in-flight set, the persistence operations issued during processing, and the
response. -/
def processDeleteRequest (inflight : List PendingTx) (txID : String)
    (getResult : Except Err Bool) (deleteResult : Except Err Unit) :
    List PendingTx × List PersistenceOp × DeleteResponse :=
  if inflight.any (fun p => p.txID == txID) then
    match deleteResult with
    | .error e => (inflight, [.deleteTransaction txID], .failed e)
    | .ok _ =>
      (inflight.map (fun p => if p.txID == txID then { p with remove := true } else p),
       [.deleteTransaction txID], .ok txID)
  else
    match getResult with
    | .error e => (inflight, [.getTransactionByID txID], .failed e)
    | .ok false => (inflight, [.getTransactionByID txID], .notFound)
    | .ok true =>
      match deleteResult with
      | .error e => (inflight, [.getTransactionByID txID, .deleteTransaction txID], .failed e)
      | .ok _ => (inflight, [.getTransactionByID txID, .deleteTransaction txID], .ok txID)

/-! ### `lockedNonce.complete` and the unlock channel

The locked-nonce map paired with the identities of `unlocked` channels.
Closing a Go channel unblocks every receiver currently blocked on it, and
closing an already-closed channel panics. -/

/-- The nonce-allocator lock state: the `signer -> lockedNonce` map (each
entry carrying the identity of its `unlocked` channel) and the set of channel
identities already closed. -/
structure LockState where
  lockedNonces : List (String × Nat)
  closedChans : List Nat
  deriving Repr, DecidableEq

/-- Embedding of `lockedNonce.complete`: under the mutex, delete the signer's
entry from `sth.lockedNonces`, then `close(ln.unlocked)`. The returned `Bool`
reports whether the close panicked (close of an already-closed channel); the
map delete has already taken effect by then. -/
def lockedNonceComplete (st : LockState) (signer : String) (chan : Nat) :
    LockState × Bool :=
  let afterDelete : LockState :=
    { st with lockedNonces := st.lockedNonces.filter (fun p => !(p.1 == signer)) }
  let panicked := afterDelete.closedChans.contains chan
  (if panicked then afterDelete
   else { afterDelete with closedChans := chan :: afterDelete.closedChans },
   panicked)

/-- Closing the `unlocked` channel unblocks every caller blocked on
`<-locked.unlocked`: the set of woken waiters is all of them. -/
def wokenByComplete (waiters : List String) : List String := waiters

/-- One woken waiter re-runs the `assignAndLockNonce` loop body, serialized
by the mutex: if no entry exists for the signer it inserts itself and becomes
the holder; otherwise it waits on the new holder's channel. -/
def reacquireStep (acc : Option String × List String) (w : String) :
    Option String × List String :=
  match acc with
  | (none, waiting) => (some w, waiting)
  | (some h, waiting) => (some h, waiting ++ [w])

/-- All woken waiters retry in mutex-acquisition (schedule) order, starting
from the freshly unlocked signer. Returns the new holder and the callers left
waiting again. -/
def reacquireAll (schedule : List String) : Option String × List String :=
  schedule.foldl reacquireStep (none, [])

/-! ### `HandleNewTransaction` (synchronous error surface) -/

/-- Modelled from the spec: `HandleNewTransaction` (implementation not under
`src/`) — it calls the connector's prepare, acquires a nonce via
`assignAndLockNonce`, writes the new managed transaction to persistence and
releases the lock; preparation and nonce-allocation failures surface
synchronously, before anything is persisted. Returns the locked-signers set,
the persisted transactions, and the synchronous result (`none` when the
caller is still blocked on nonce contention). -/
def HandleNewTransaction (prepareResult : Except Err Unit)
    (lockedNonces : List String) (signer : String)
    (txns : Except Err (List ManagedTX)) (now nonceStateTimeout : Int)
    (nodeNonce : Except Err Nat) (persisted : List ManagedTX) :
    List String × List ManagedTX × Option (Except Err ManagedTX) :=
  match prepareResult with
  | .error e => (lockedNonces, persisted, some (.error e))
  | .ok _ =>
    match assignAndLockNonce lockedNonces signer txns now nonceStateTimeout nodeNonce with
    | (st, .blocked) => (st, persisted, none)
    | (st, .failed e) => (st, persisted, some (.error e))
    | (st, .assigned n) =>
      let mtx : ManagedTX := ⟨n, now⟩
      (st.erase signer, persisted ++ [mtx], some (.ok mtx))

/-! ## Theorems -/

set_option maxRecDepth 8192

/-- Helper: on the fresh-local path the connector argument is never examined. -/
theorem calcNextNonce_fresh (lastTxn : ManagedTX) (now t : Int) (conn : Except Err Nat)
    (h : now - lastTxn.created < t) :
    calcNextNonce (.ok [lastTxn]) now t conn
      = .ok (toUint64 (toUint64 lastTxn.nonce + 1)) := by
  simp [calcNextNonce, h]

/-- Helper: on the stale-local path the node's answer is compared with the
local nonce, both truncated to `uint64`. -/
theorem calcNextNonce_stale (lastTxn : ManagedTX) (now t : Int) (node : Nat)
    (h : ¬ now - lastTxn.created < t) :
    calcNextNonce (.ok [lastTxn]) now t (.ok node)
      = if toUint64 node ≤ toUint64 lastTxn.nonce
        then .ok (toUint64 (toUint64 lastTxn.nonce + 1))
        else .ok (toUint64 node) := by
  simp [calcNextNonce, h]

/-- Claim C1: the next-nonce computation first reads the most recent persisted
transaction for the signer (descending nonce, limit 1); if one exists and its
created time is within `nonceStateTimeout` it returns that transaction's nonce
plus one without consulting the connector (the result does not depend on the
connector argument); otherwise it asks the node, and a stale local record with
nonce at least the node's answer wins with local nonce plus one, else the
node's answer is returned. -/
theorem calcNextNonce_spec (lastTxn : ManagedTX) (now nonceStateTimeout : Int)
    (node : Nat) (conn conn' : Except Err Nat) :
    (now - lastTxn.created < nonceStateTimeout →
      calcNextNonce (.ok [lastTxn]) now nonceStateTimeout conn
        = .ok (toUint64 (toUint64 lastTxn.nonce + 1))
      ∧ calcNextNonce (.ok [lastTxn]) now nonceStateTimeout conn
          = calcNextNonce (.ok [lastTxn]) now nonceStateTimeout conn')
    ∧ (¬ now - lastTxn.created < nonceStateTimeout →
      calcNextNonce (.ok [lastTxn]) now nonceStateTimeout (.ok node)
        = if toUint64 node ≤ toUint64 lastTxn.nonce
          then .ok (toUint64 (toUint64 lastTxn.nonce + 1))
          else .ok (toUint64 node))
    ∧ calcNextNonce (.ok []) now nonceStateTimeout (.ok node) = .ok (toUint64 node) := by
  refine ⟨fun hfresh => ⟨calcNextNonce_fresh lastTxn now nonceStateTimeout conn hfresh,
      (calcNextNonce_fresh lastTxn now nonceStateTimeout conn hfresh).trans
        (calcNextNonce_fresh lastTxn now nonceStateTimeout conn' hfresh).symm⟩,
    fun hstale => calcNextNonce_stale lastTxn now nonceStateTimeout node hstale,
    by simp [calcNextNonce]⟩

/-- Witness for C1: with a fresh local record of nonce 5 the answer is 6 and
the connector argument is irrelevant; with a stale record the node answer 3 is
compared against the local nonce 5. -/
theorem calcNextNonce_spec_witness :
    calcNextNonce (.ok [(⟨5, 0⟩ : ManagedTX)]) 0 1 (.error ("boom"))
      = calcNextNonce (.ok [(⟨5, 0⟩ : ManagedTX)]) 0 1 (.ok 99)
    ∧ calcNextNonce (.ok [(⟨5, 0⟩ : ManagedTX)]) 2 1 (.ok 3)
      = if toUint64 3 ≤ toUint64 5
        then .ok (toUint64 (toUint64 5 + 1)) else .ok (toUint64 3) :=
  ⟨((calcNextNonce_spec ⟨5, 0⟩ 0 1 99 (.error ("boom")) (.ok 99)).1 (by norm_num)).2,
   (calcNextNonce_spec ⟨5, 0⟩ 2 1 3 (.ok 3) (.ok 3)).2.1 (by norm_num)⟩

/-- Claim C10: the nonce computation is `uint64` arithmetic — the persisted
nonce and the node's answer go through `Uint64()` truncation before comparison
and increment, so on the fresh path the result is `(nonce + 1) % 2 ^ 64`,
which for any stored nonce of at least `2 ^ 64 - 1` wraps (is strictly smaller
than `nonce + 1`) instead of growing without bound; on the stale path the
node's answer is equivalent to its `uint64` truncation. -/
theorem calcNextNonce_uint64 (lastTxn : ManagedTX)
    (now nonceStateTimeout : Int) (conn : Except Err Nat)
    (hfresh : now - lastTxn.created < nonceStateTimeout) :
    calcNextNonce (.ok [lastTxn]) now nonceStateTimeout conn
      = .ok ((lastTxn.nonce + 1) % U64LIMIT)
    ∧ (U64LIMIT - 1 ≤ lastTxn.nonce →
        (lastTxn.nonce + 1) % U64LIMIT < lastTxn.nonce + 1)
    ∧ (∀ (now2 t2 : Int) (node : Nat), ¬ now2 - lastTxn.created < t2 →
        calcNextNonce (.ok [lastTxn]) now2 t2 (.ok node)
          = calcNextNonce (.ok [lastTxn]) now2 t2 (.ok (node % U64LIMIT))) := by
  have hmm : ∀ a : Nat, (a % U64LIMIT + 1) % U64LIMIT = (a + 1) % U64LIMIT := by
    intro a
    conv_rhs => rw [Nat.add_mod]
    simp [U64LIMIT]
  refine ⟨?_, ?_, ?_⟩
  · rw [calcNextNonce_fresh lastTxn now nonceStateTimeout conn hfresh]
    simp [toUint64, hmm]
  · intro hbig
    have h1 : 0 < U64LIMIT := by norm_num [U64LIMIT]
    have h2 : (lastTxn.nonce + 1) % U64LIMIT < U64LIMIT := Nat.mod_lt _ h1
    omega
  · intro now2 t2 node hstale
    have ht : toUint64 (node % U64LIMIT) = toUint64 node := by
      simp [toUint64, Nat.mod_mod_of_dvd]
    rw [calcNextNonce_stale lastTxn now2 t2 node hstale,
      calcNextNonce_stale lastTxn now2 t2 (node % U64LIMIT) hstale, ht]

/-- Witness for C10: a fresh stored nonce of `2 ^ 64 - 1` yields next nonce
`(2 ^ 64 - 1 + 1) % 2 ^ 64 = 0`, strictly below the unbounded successor. -/
theorem calcNextNonce_uint64_witness :
    calcNextNonce (.ok [(⟨U64LIMIT - 1, 0⟩ : ManagedTX)]) 0 1 (.error ("x"))
      = .ok ((U64LIMIT - 1 + 1) % U64LIMIT)
    ∧ (U64LIMIT - 1 + 1) % U64LIMIT < U64LIMIT - 1 + 1
    ∧ (U64LIMIT - 1 + 1) % U64LIMIT = 0 :=
  have h := calcNextNonce_uint64 ⟨U64LIMIT - 1, 0⟩ 0 1 (.error ("x")) (by norm_num)
  ⟨h.1, h.2.1 (Nat.le_refl (U64LIMIT - 1)), by norm_num [U64LIMIT]⟩

/-- Counterexample to claim C2 as stated: two accepted requests — the first
gets nonce 5 from the node, the second finds the record stale and the node
answers 10 — assign nonces 5 and 10, which are not consecutive: the code
permits a gap when the node's next nonce is more than one ahead of the stale
local record. -/
theorem nonceRun_gap :
    nonceRun [] [⟨true, 5⟩, ⟨false, 10⟩] = [5, 10]
    ∧ ¬ isConsecutive (nonceRun [] [⟨true, 5⟩, ⟨false, 10⟩]) := by
  have hrun : nonceRun [] [⟨true, 5⟩, ⟨false, 10⟩] = [5, 10] := by decide
  refine ⟨hrun, ?_⟩
  rintro ⟨n, h⟩
  rw [hrun] at h
  simp [List.range'] at h
  omega

/-- Helper for C2: from any persisted set whose highest nonce is `r.nonce`
(with `created = 0` as the runs maintain), a sequence of requests in which
every step either sees a fresh record or a node answer at most one ahead
assigns exactly the consecutive nonces starting at `r.nonce + 1`, provided no
`uint64` wrap occurs. -/
theorem nonceRun_consecutive_from (rest : List NonceStep) :
    ∀ (persisted : List ManagedTX) (r : ManagedTX),
      List.argmax (fun t => t.nonce) persisted = some r →
      r.created = 0 →
      r.nonce + rest.length + 1 ≤ U64LIMIT →
      stepsOkFrom r.nonce rest = true →
      nonceRun persisted rest = List.range' (r.nonce + 1) rest.length := by
  induction rest with
  | nil => intro persisted r _ _ _ _; rfl
  | cons s rest ih =>
    intro persisted r hmax hc hbound hok
    simp only [stepsOkFrom, Bool.and_eq_true, Bool.or_eq_true, decide_eq_true_eq] at hok
    obtain ⟨hok1, hok2⟩ := hok
    simp only [List.length_cons] at hbound
    have hnonce_lt : r.nonce + 1 < U64LIMIT := by omega
    have e1 : toUint64 r.nonce = r.nonce := Nat.mod_eq_of_lt (by omega)
    have e2 : toUint64 (r.nonce + 1) = r.nonce + 1 := Nat.mod_eq_of_lt hnonce_lt
    have hlist : listByNonceDesc1 persisted = [r] := by
      simp [listByNonceDesc1, hmax]
    have hfreshstep : s.fresh = true → nextNonceOfStep persisted s = r.nonce + 1 := by
      intro hf
      rw [nextNonceOfStep, hlist, if_pos hf]
      rw [calcNextNonce_fresh r 0 1 (.ok s.node) (by rw [hc]; norm_num)]
      simp [e1, e2]
    have hstalestep : s.fresh = false → s.node ≤ r.nonce + 1 →
        nextNonceOfStep persisted s = r.nonce + 1 := by
      intro hf hnode
      have e0 : toUint64 s.node = s.node := Nat.mod_eq_of_lt (by omega)
      rw [nextNonceOfStep, hlist, if_neg (by simp [hf])]
      rw [calcNextNonce_stale r 1 1 s.node (by rw [hc]; norm_num)]
      rw [e0, e1]
      by_cases hle : s.node ≤ r.nonce
      · rw [if_pos hle]
        simp [e1, e2]
      · rw [if_neg hle]
        simp
        omega
    have hstep : nextNonceOfStep persisted s = r.nonce + 1 := by
      rcases hok1 with hf | hnode
      · exact hfreshstep hf
      · cases hf : s.fresh
        · exact hstalestep hf hnode
        · exact hfreshstep hf
    have hmax2 : List.argmax (fun t => t.nonce) (persisted ++ [⟨r.nonce + 1, 0⟩])
        = some ⟨r.nonce + 1, 0⟩ := by
      rw [List.argmax_concat, hmax]
      simp
    have hb2 : (⟨r.nonce + 1, 0⟩ : ManagedTX).nonce + rest.length + 1 ≤ U64LIMIT := by
      show r.nonce + 1 + rest.length + 1 ≤ U64LIMIT
      omega
    have ih2 := ih (persisted ++ [⟨r.nonce + 1, 0⟩]) ⟨r.nonce + 1, 0⟩ hmax2 rfl hb2 hok2
    rw [nonceRun]
    simp only [hstep, List.length_cons]
    rw [ih2, List.range'_succ]

/-- Claim C2 (amended): starting from an empty persisted set, the nonces
assigned over a sequence of accepted requests are consecutive
`n, n+1, ..., n+k-1` (with `n` the node's answer to the first request) —
hence with no duplicate and no gap — provided every later request either
finds the previous record within `nonceStateTimeout` or gets a node answer at
most one ahead of the last assigned nonce, and no `uint64` wrap occurs. As
stated the claim is false: a stale record together with a node answer further
ahead produces a gap (`nonceRun_gap`). -/
theorem nonceRun_consecutive (first : NonceStep) (rest : List NonceStep)
    (hbound : first.node + rest.length + 1 ≤ U64LIMIT)
    (hok : stepsOkFrom first.node rest = true) :
    nonceRun [] (first :: rest) = List.range' first.node (rest.length + 1)
    ∧ isConsecutive (nonceRun [] (first :: rest)) := by
  have hn : nextNonceOfStep [] first = first.node := by
    rw [nextNonceOfStep]
    simp [listByNonceDesc1, calcNextNonce]
    exact Nat.mod_eq_of_lt (by omega)
  have hb1 : (⟨first.node, 0⟩ : ManagedTX).nonce + rest.length + 1 ≤ U64LIMIT := by
    show first.node + rest.length + 1 ≤ U64LIMIT
    omega
  have haux := nonceRun_consecutive_from rest [⟨first.node, 0⟩] ⟨first.node, 0⟩
      (by simp) rfl hb1 hok
  have heq : nonceRun [] (first :: rest) = List.range' first.node (rest.length + 1) := by
    rw [nonceRun]
    simp only [hn, List.nil_append]
    rw [haux, List.range'_succ]
  refine ⟨heq, first.node, ?_⟩
  rw [heq]
  simp

/-- Witness for C2 (amended): three requests — node answer 3, then a fresh
record, then a stale record with node answer 4 — assign 3, 4, 5. -/
theorem nonceRun_consecutive_witness :
    stepsOkFrom 3 [⟨true, 0⟩, ⟨false, 4⟩] = true
    ∧ nonceRun [] [⟨false, 3⟩, ⟨true, 0⟩, ⟨false, 4⟩] = List.range' 3 3 :=
  ⟨by decide,
   (nonceRun_consecutive ⟨false, 3⟩ [⟨true, 0⟩, ⟨false, 4⟩] (by decide) (by decide)).1⟩

/-- Claim C3: the history list never exceeds `maxHistoryCount`, with FIFO
eviction of the oldest entry once the cap is reached, while `historySummary`
is not subject to that cap: with `maxHistoryCount = 50`, 100 `SetSubStatus`
calls with distinct statuses leave exactly 50 history entries and 100
`historySummary` entries. -/
theorem SetSubStatus_history_bounded
    (maxHistoryCount : Nat) (now : Int) (m : MTXHistory) (s : String)
    (hlen : m.history.length ≤ maxHistoryCount) :
    (SetSubStatus maxHistoryCount now m s).history.length ≤ maxHistoryCount
    ∧ (m.history.length = maxHistoryCount → maxHistoryCount ≠ 0 →
        tailStatus m ≠ some s →
        (SetSubStatus maxHistoryCount now m s).history
          = m.history.drop 1 ++ [⟨s, now, []⟩])
    ∧ (applyStatuses 50 ⟨[], []⟩ hundredDistinct).history.length = 50
    ∧ (applyStatuses 50 ⟨[], []⟩ hundredDistinct).historySummary.length = 100 := by
  refine ⟨?_, ?_, by decide, by decide⟩
  · rw [SetSubStatus]
    split_ifs with h0 htail hcap <;> simp_all <;> omega
  · intro hfull h0 htail
    rw [SetSubStatus]
    rw [if_neg h0, if_neg htail, if_pos (by omega)]

/-- Witness for C3: at the cap of 2, a third distinct status evicts the
oldest entry and keeps the length at 2. -/
theorem SetSubStatus_history_bounded_witness :
    (SetSubStatus 2 0 ⟨[⟨"a", 0, []⟩, ⟨"b", 0, []⟩], []⟩ ("c")).history.length ≤ 2
    ∧ (SetSubStatus 2 0 ⟨[⟨"a", 0, []⟩, ⟨"b", 0, []⟩], []⟩ ("c")).history
      = [⟨"a", 0, []⟩, ⟨"b", 0, []⟩].drop 1 ++ [⟨"c", 0, []⟩] :=
  ⟨(SetSubStatus_history_bounded 2 0 ⟨[⟨"a", 0, []⟩, ⟨"b", 0, []⟩], []⟩ ("c")
      (by decide)).1,
   (SetSubStatus_history_bounded 2 0 ⟨[⟨"a", 0, []⟩, ⟨"b", 0, []⟩], []⟩ ("c")
      (by decide)).2.1 (by decide) (by decide) (by decide)⟩

/-- Claim C7: calling `SetSubStatus` with the status of the current tail
history entry is a no-op; in particular `SetSubStatus` is idempotent, so
repeated calls with the same status never grow the history list, and the
history changes only when the status differs from the current tail. -/
theorem SetSubStatus_same_noop
    (maxHistoryCount : Nat) (now now2 : Int) (m : MTXHistory) (s : String) :
    (tailStatus m = some s → SetSubStatus maxHistoryCount now m s = m)
    ∧ SetSubStatus maxHistoryCount now2 (SetSubStatus maxHistoryCount now m s) s
        = SetSubStatus maxHistoryCount now m s
    ∧ ((SetSubStatus maxHistoryCount now m s).history ≠ m.history →
        tailStatus m ≠ some s) := by
  have hsame : ∀ (t : Int) (m2 : MTXHistory), tailStatus m2 = some s →
      SetSubStatus maxHistoryCount t m2 s = m2 := by
    intro t m2 ht
    rw [SetSubStatus]
    split_ifs <;> simp_all
  refine ⟨hsame now m, ?_, ?_⟩
  · by_cases h0 : maxHistoryCount = 0
    · simp [SetSubStatus, h0]
    · by_cases htail : tailStatus m = some s
      · rw [hsame now m htail]
        exact hsame now2 m htail
      · apply hsame
        rw [SetSubStatus, if_neg h0, if_neg htail]
        simp [tailStatus]
  · intro hne htail
    exact hne (by rw [hsame now m htail])

/-- Witness for C7: a repeated `Received` sub-status leaves the transaction
unchanged, and a second identical call equals the first. -/
theorem SetSubStatus_same_noop_witness :
    SetSubStatus 50 0 ⟨[⟨"Received", 0, []⟩], []⟩ ("Received")
      = (⟨[⟨"Received", 0, []⟩], []⟩ : MTXHistory)
    ∧ SetSubStatus 50 1 (SetSubStatus 50 0 ⟨[], []⟩ ("Received")) ("Received")
      = SetSubStatus 50 0 ⟨[], []⟩ ("Received") :=
  ⟨(SetSubStatus_same_noop 50 0 1 ⟨[⟨"Received", 0, []⟩], []⟩ ("Received")).1 (by decide),
   (SetSubStatus_same_noop 50 0 1 ⟨[], []⟩ ("Received")).2.1⟩

/-- Claim C4: on resubmission with a changed transaction hash, the
confirmations manager is notified `RemovedTransaction(oldHash)` before
`NewTransaction(newHash)` (the notification list is exactly removal of the
old hash followed by the new hash), and the record's `transactionHash` and
`lastSubmit` are updated to the new submission. -/
theorem resubmitTX_removed_then_new
    (tx : TxSubmission) (newHash : String) (now : Int)
    (hchanged : newHash ≠ tx.transactionHash) :
    (resubmitTX tx newHash now).2
      = [Notification.removedTransaction tx.transactionHash,
         Notification.newTransaction newHash]
    ∧ (resubmitTX tx newHash now).1.transactionHash = newHash
    ∧ (resubmitTX tx newHash now).1.lastSubmit = some now := by
  refine ⟨?_, rfl, rfl⟩
  simp [resubmitTX, hchanged]

/-- Witness for C4: resubmitting a transaction whose hash changes from
`0xaaa1` to `0xaaa2` notifies removal of `0xaaa1`, then `0xaaa2` as new. -/
theorem resubmitTX_removed_then_new_witness :
    (resubmitTX ⟨"0xaaa1", some 0, some 0⟩ ("0xaaa2") 5).2
      = [Notification.removedTransaction ("0xaaa1"),
         Notification.newTransaction ("0xaaa2")]
    ∧ (resubmitTX ⟨"0xaaa1", some 0, some 0⟩ ("0xaaa2") 5).1.transactionHash = "0xaaa2"
    ∧ (resubmitTX ⟨"0xaaa1", some 0, some 0⟩ ("0xaaa2") 5).1.lastSubmit = some 5 :=
  resubmitTX_removed_then_new ⟨"0xaaa1", some 0, some 0⟩ ("0xaaa2") 5 (by decide)

/-- Counterexample to claim C5 as stated: for an in-flight transaction the
`DeleteTransaction` persistence call is issued synchronously while the
request is processed (as `TestExecPolicyDeleteInflightSync` requires of the
mock), not deferred to the next cycle; the `remove` flag is still set and
`OK` returned. -/
theorem processDeleteRequest_inflight_sync_delete :
    PersistenceOp.deleteTransaction ("tx1")
      ∈ (processDeleteRequest [⟨"tx1", false⟩] ("tx1") (.ok true) (.ok ())).2.1
    ∧ (processDeleteRequest [⟨"tx1", false⟩] ("tx1") (.ok true) (.ok ())).1
      = [⟨"tx1", true⟩]
    ∧ (processDeleteRequest [⟨"tx1", false⟩] ("tx1") (.ok true) (.ok ())).2.2
      = .ok ("tx1") := by decide

/-- Claim C5 (amended): a Delete request for an in-flight transaction sets
its `remove` flag, deletes it from persistence synchronously during request
processing, and answers `OK` (the in-flight entry itself is dropped on the
next cycle); a transaction not in flight but in persistence is deleted
directly with `OK`; a transaction found nowhere yields error `FF21067` with
no state change and no deletion. As stated the claim is false only in
deferring the in-flight persistence deletion to the next cycle
(`processDeleteRequest_inflight_sync_delete`). -/
theorem processDeleteRequest_cases
    (inflight : List PendingTx) (txID : String)
    (getResult : Except Err Bool) (deleteResult : Except Err Unit) :
    (inflight.any (fun p => p.txID == txID) = true →
      processDeleteRequest inflight txID getResult (.ok ())
        = (inflight.map (fun p => if p.txID == txID then { p with remove := true } else p),
           [.deleteTransaction txID], .ok txID))
    ∧ (inflight.any (fun p => p.txID == txID) = false →
        processDeleteRequest inflight txID (.ok true) (.ok ())
          = (inflight, [.getTransactionByID txID, .deleteTransaction txID], .ok txID))
    ∧ (inflight.any (fun p => p.txID == txID) = false →
        processDeleteRequest inflight txID (.ok false) deleteResult
          = (inflight, [.getTransactionByID txID], .notFound)) := by
  refine ⟨fun h => by simp [processDeleteRequest, h],
    fun h => by simp [processDeleteRequest, h],
    fun h => by simp [processDeleteRequest, h]⟩

/-- Witness for C5 (amended): an in-flight delete marks the record and
answers `OK`; an unknown id answers the not-found error with the in-flight
set unchanged. -/
theorem processDeleteRequest_cases_witness :
    processDeleteRequest [⟨"tx2", false⟩] ("tx2") (.error ("x")) (.ok ())
      = ([⟨"tx2", true⟩], [.deleteTransaction ("tx2")], .ok ("tx2"))
    ∧ processDeleteRequest [⟨"tx2", false⟩] ("other") (.ok false) (.ok ())
      = ([⟨"tx2", false⟩], [.getTransactionByID ("other")], .notFound) :=
  ⟨(processDeleteRequest_cases [⟨"tx2", false⟩] ("tx2") (.error ("x")) (.ok ())).1
      (by decide),
   (processDeleteRequest_cases [⟨"tx2", false⟩] ("other") (.ok false) (.ok ())).2.2
      (by decide)⟩

/-- Claim C6: when `calcNextNonce` fails inside `assignAndLockNonce` (a
persistence or connector error), the error is returned to the caller, the
signer's locked-nonce entry has been removed again via `complete()` (the
locked set is exactly as before the call), and nothing is persisted — and
the error surfaces synchronously from `HandleNewTransaction`, as do
preparation errors. -/
theorem assignAndLockNonce_error_releases
    (lockedNonces : List String) (signer : String)
    (txns : Except Err (List ManagedTX)) (now nonceStateTimeout : Int)
    (nodeNonce : Except Err Nat) (e : Err) (persisted : List ManagedTX)
    (hunlocked : signer ∉ lockedNonces)
    (hcalc : calcNextNonce txns now nonceStateTimeout nodeNonce = .error e) :
    assignAndLockNonce lockedNonces signer txns now nonceStateTimeout nodeNonce
      = (lockedNonces, .failed e)
    ∧ HandleNewTransaction (.ok ()) lockedNonces signer txns now nonceStateTimeout
        nodeNonce persisted
      = (lockedNonces, persisted, some (.error e))
    ∧ (∀ e2 : Err, HandleNewTransaction (.error e2) lockedNonces signer txns now
        nonceStateTimeout nodeNonce persisted
      = (lockedNonces, persisted, some (.error e2))) := by
  have h1 : assignAndLockNonce lockedNonces signer txns now nonceStateTimeout nodeNonce
      = (lockedNonces, .failed e) := by
    simp [assignAndLockNonce, hunlocked, hcalc, List.erase_cons_head]
  refine ⟨h1, ?_, fun e2 => by simp [HandleNewTransaction]⟩
  simp [HandleNewTransaction, h1]

/-- Witness for C6: a failing persistence query surfaces its error from both
`assignAndLockNonce` and `HandleNewTransaction`, with the signer left
unlocked and nothing persisted. -/
theorem assignAndLockNonce_error_releases_witness :
    assignAndLockNonce [] ("0xaaaaa") (.error ("pop")) 0 1 (.ok 5)
      = ([], .failed ("pop"))
    ∧ HandleNewTransaction (.ok ()) [] ("0xaaaaa") (.error ("pop")) 0 1 (.ok 5) []
      = ([], [], some (.error ("pop"))) :=
  have h := assignAndLockNonce_error_releases [] ("0xaaaaa") (.error ("pop")) 0 1
      (.ok 5) ("pop") [] (by simp) (by rfl)
  ⟨h.1, h.2.1⟩

/-- Helper: once a holder exists, every further woken waiter just joins the
wait set again. -/
theorem foldl_reacquireStep_locked (h : String) (l : List String) :
    ∀ acc : List String, l.foldl reacquireStep (some h, acc) = (some h, acc ++ l) := by
  induction l with
  | nil => intro acc; simp
  | cons x xs ih =>
    intro acc
    simp only [List.foldl_cons, reacquireStep, ih]
    simp

/-- Counterexample to claim C8 as stated: `close(ln.unlocked)` unblocks every
caller blocked on `<-locked.unlocked` — with two waiters, two callers wake,
not exactly one. -/
theorem complete_wakes_two :
    wokenByComplete [("a"), ("b")] = [("a"), ("b")]
    ∧ ¬ (wokenByComplete [("a"), ("b")]).length = 1 := by decide

/-- Claim C8 (amended): `complete()` removes the signer's entry from the
locked-nonce map, and the channel close wakes all waiting callers, of which
exactly the first to re-acquire the mutex obtains the lock (barging
permitted, fairness not promised) while the rest wait again. As stated the
claim is false in saying exactly one waiter wakes (`complete_wakes_two`). -/
theorem complete_wakes_all (st : LockState) (signer : String) (chan : Nat)
    (w : String) (rest : List String) :
    ((lockedNonceComplete st signer chan).1.lockedNonces.any
        (fun p => p.1 == signer)) = false
    ∧ wokenByComplete (w :: rest) = w :: rest
    ∧ reacquireAll (w :: rest) = (some w, rest) := by
  have hln : (lockedNonceComplete st signer chan).1.lockedNonces
      = st.lockedNonces.filter (fun p => !(p.1 == signer)) := by
    simp [lockedNonceComplete, apply_ite LockState.lockedNonces]
  refine ⟨?_, rfl, ?_⟩
  · rw [hln]
    simp [List.any_eq_true, List.mem_filter]
  · simp [reacquireAll, List.foldl_cons, reacquireStep, foldl_reacquireStep_locked]

/-- Claim C9: `complete()` may be called exactly once on a handle — the first
call does not panic and closes the channel; a second `complete()` on the same
handle closes an already-closed channel and panics, and still deletes the
signer's map entry first, even when that entry now belongs to a later
holder. -/
theorem lockedNonceComplete_double
    (st st2 : LockState) (signer : String) (chan chan2 : Nat)
    (hopen : chan ∉ st.closedChans)
    (hclosed : chan ∈ st2.closedChans)
    (hlater : (signer, chan2) ∈ st2.lockedNonces) :
    (lockedNonceComplete st signer chan).2 = false
    ∧ (lockedNonceComplete st signer chan).1.closedChans = chan :: st.closedChans
    ∧ (lockedNonceComplete st2 signer chan).2 = true
    ∧ (signer, chan2) ∉ (lockedNonceComplete st2 signer chan).1.lockedNonces := by
  refine ⟨?_, ?_, ?_, ?_⟩
  · simp [lockedNonceComplete, hopen]
  · simp [lockedNonceComplete, hopen]
  · simp [lockedNonceComplete, hclosed]
  · simp [lockedNonceComplete, hclosed, List.mem_filter]

/-- Witness for C9: completing a handle on channel 1 is panic-free; a second
completion after channel 1 is closed panics and deletes the later holder's
entry `(s1, 2)`. -/
theorem lockedNonceComplete_double_witness :
    (lockedNonceComplete ⟨[("s1", 1)], []⟩ ("s1") 1).2 = false
    ∧ (lockedNonceComplete ⟨[("s1", 2)], [1]⟩ ("s1") 1).2 = true
    ∧ ("s1", 2) ∉ (lockedNonceComplete ⟨[("s1", 2)], [1]⟩ ("s1") 1).1.lockedNonces :=
  have h := lockedNonceComplete_double ⟨[("s1", 1)], []⟩ ⟨[("s1", 2)], [1]⟩ ("s1") 1 2
      (by decide) (by decide) (by decide)
  ⟨h.1, h.2.2.1, h.2.2.2⟩

end FFTM
